import Mathlib

/-!
Verification of the perfume price-comparison engine against its
natural-language specification.

The visible repository (`src/`) is the thin UI layer: the TypeScript
interfaces in `src/types/perfume.ts`, the search form in
`src/components/SearchForm.tsx`, the results grid in
`src/components/ResultsGrid.tsx`, the price card, and the Next.js page.
The aggregation engine itself (Source Adapters, Normalizer, Aggregator,
Ranker, Comparison Engine) is not present in the sources; where a claim
depends on it, the corresponding definition below is modelled from the
specification and marked as such in its doc comment.  Definitions taken
from actual repository code (`handleSubmitSearch`, `isBestDealFlag`,
`bestDealBannerShown`) cite their source file.
-/

namespace Perfume

/-- `PriceResult` from `src/types/perfume.ts` lines 2–10: one retailer's
offer.  TypeScript `number | null` becomes `Option ℚ`, `string | null`
becomes `Option String`. -/
structure PriceResult where
  site : String
  price : Option ℚ
  size : Option String
  price_per_ml : Option ℚ
  url : String
  stock_status : String
  image_url : Option String
deriving DecidableEq, Repr

/-- `ComparisonResult` from `src/types/perfume.ts` lines 12–16: the full
answer for one query. -/
structure ComparisonResult where
  perfume_name : String
  results : List PriceResult
  best_deal : Option PriceResult
deriving DecidableEq, Repr

/-- Modelled from the spec (§4.1): a raw extraction is an unnormalized bag
of fields scraped from one retailer (raw price text, raw size text, raw
stock text, product URL, image URL); the Source Adapters that produce it
are not in the visible sources. -/
structure RawExtraction where
  rawPrice : Option String
  rawSize : Option String
  rawStock : Option String
  url : String
  image_url : Option String
deriving DecidableEq, Repr

/-- Modelled from the spec (§4.1): the outcome of one Source Adapter call,
`Result<RawExtraction, SourceError>` with
`SourceError ∈ {NotFound, Unreachable, ParseFailure, Timeout}`. -/
inductive FetchOutcome where
  | success (raw : RawExtraction)
  | notFound
  | unreachable
  | parseFailure
  | timeout
deriving DecidableEq, Repr

/-- Modelled from the spec (§7): the only error that reaches the caller of
`Compare` is `InvalidQuery`. -/
inductive QueryError where
  | invalidQuery
deriving DecidableEq, Repr

/-- Rounding to 2 decimal digits, used by the Normalizer for
`price_per_ml` (spec §4.2). -/
def round2 (q : ℚ) : ℚ := (round (q * 100) : ℤ) / 100

/-- Strip whitespace from both ends of a character list (the behavior of
JavaScript `String.prototype.trim`, as called in
`src/components/SearchForm.tsx`). -/
def trimList (cs : List Char) : List Char :=
  ((cs.dropWhile Char.isWhitespace).reverse.dropWhile Char.isWhitespace).reverse

/-- Whitespace-trimming on strings, via `trimList` on the character
data. -/
def strTrim (s : String) : String := ⟨trimList s.data⟩

/-- Split a character list at every occurrence of the separator
character; the separators are not kept. -/
def splitOnChar (c : Char) : List Char → List (List Char)
  | [] => [[]]
  | x :: xs =>
      match splitOnChar c xs with
      | [] => [[]]
      | h :: t => if x = c then [] :: h :: t else (x :: h) :: t

/-- `true` when `pat` is an initial segment of `cs`. -/
def startsWithList (cs pat : List Char) : Bool := cs.take pat.length == pat

/-- `true` when `pat` is a final segment of `cs`. -/
def endsWithList (cs pat : List Char) : Bool := cs.reverse.take pat.length == pat.reverse

/-- `true` when `pat` occurs as a contiguous sublist of the second
argument. -/
def containsSubList (pat : List Char) : List Char → Bool
  | [] => pat.isEmpty
  | c :: cs => startsWithList (c :: cs) pat || containsSubList pat cs

/-- Parse a nonempty all-digit character list into a natural number. -/
def natOfDigits (cs : List Char) : Option ℕ :=
  if cs = [] then none
  else if cs.all Char.isDigit then
    some (cs.foldl (fun n c => 10 * n + (c.toNat - 48)) 0)
  else none

/-- Modelled from the spec (§4.2, §9): parse a decimal numeral such as
`"100"` or `"3.4"` into a rational, returning `none` on anything that is
not a plain decimal numeral. -/
def parseDecimalList (cs : List Char) : Option ℚ :=
  match splitOnChar '.' (trimList cs) with
  | [w] =>
      match natOfDigits w with
      | some n => some (n : ℚ)
      | none => none
  | [w, f] =>
      match natOfDigits w, natOfDigits f with
      | some n, some m => some ((n : ℚ) + (m : ℚ) / ((10 : ℚ) ^ f.length))
      | _, _ => none
  | _ => none

/-- Modelled from the spec (§4.2): parse a raw price string into a numeric
value, skipping a leading currency marker; on failure the price is left
absent. -/
def parsePrice (s : String) : Option ℚ :=
  parseDecimalList (s.data.dropWhile (fun c => !c.isDigit))

/-- Fixed ounce-to-milliliter conversion factor (spec §4.2: ounces
convertible via a fixed factor to ml). -/
def ozToMl : ℚ := 295735 / 10000

/-- Modelled from the spec (§4.2, §9): parse a raw size string into a
volume in milliliters when it matches a recognized unit pattern
(`"100 ml"`, `"3.4 oz"`); unrecognized patterns yield no volume. -/
def parseVolumeMl (s : String) : Option ℚ :=
  let t := (trimList s.data).map Char.toLower
  if endsWithList t ['m', 'l'] then parseDecimalList (t.take (t.length - 2))
  else if endsWithList t ['o', 'z'] then
    match parseDecimalList (t.take (t.length - 2)) with
    | some n => some (n * ozToMl)
    | none => none
  else none

/-- Modelled from the spec (§4.2, §6): map raw stock text to the closed
set via case-insensitive keyword match — contains "out" ⇒ "Out of Stock",
contains "in stock" or "available" ⇒ "In Stock", else "Unknown";
a retailer reporting nothing yields "Unknown". -/
def mapStockStatus (raw : Option String) : String :=
  match raw with
  | none => "Unknown"
  | some s =>
      let t := s.data.map Char.toLower
      if containsSubList ['o', 'u', 't'] t then "Out of Stock"
      else if containsSubList ['i', 'n', ' ', 's', 't', 'o', 'c', 'k'] t ∨
          containsSubList ['a', 'v', 'a', 'i', 'l', 'a', 'b', 'l', 'e'] t then "In Stock"
      else "Unknown"

/-- Modelled from the spec (§4.2): `Normalize(site, RawExtraction) ->
PriceResult`.  Each field degrades to absent on parse failure;
`price_per_ml = round2 (price / volume_ml)` only when both are present and
`volume_ml > 0`. -/
def Normalize (site : String) (raw : RawExtraction) : PriceResult :=
  let price := raw.rawPrice.bind parsePrice
  let volume := raw.rawSize.bind parseVolumeMl
  { site := site
    price := price
    size := raw.rawSize
    price_per_ml :=
      match price, volume with
      | some p, some v => if 0 < v then some (round2 (p / v)) else none
      | _, _ => none
    url := raw.url
    stock_status := mapStockStatus raw.rawStock
    image_url := raw.image_url }

/-- First-seen argmin: the earliest element of the list attaining the
minimal key, `none` on the empty list. -/
def argminBy (f : PriceResult → ℚ) : List PriceResult → Option PriceResult
  | [] => none
  | x :: xs =>
      match argminBy f xs with
      | none => some x
      | some b => if f b < f x then some b else some x

/-- Key used when ranking by per-ml price (all ranked entries have
`price_per_ml` present, so the default is never read). -/
def ppmKey (r : PriceResult) : ℚ := r.price_per_ml.getD 0

/-- Key used when ranking by raw price (all ranked entries have `price`
present, so the default is never read). -/
def priceKey (r : PriceResult) : ℚ := r.price.getD 0

/-- Modelled from the spec (§4.3): the Ranker.  Consider only results with
`price` present; if none, absent; otherwise minimum by `price_per_ml` when
at least two priced results carry it, else minimum by raw `price`; ties
break by earliest position. -/
def SelectBest (results : List PriceResult) : Option PriceResult :=
  let priced := results.filter (fun r => r.price.isSome)
  if priced.isEmpty then none
  else
    let withPpm := priced.filter (fun r => r.price_per_ml.isSome)
    if 2 ≤ withPpm.length then argminBy ppmKey withPpm
    else argminBy priceKey priced

/-- Modelled from the spec (§4.4): the Aggregator over settled adapter
outcomes, listed in completion order.  Success ⇒ normalize and append;
`NotFound`, `Unreachable`, `ParseFailure`, `Timeout` ⇒ omit. -/
def Aggregate (outcomes : List (String × FetchOutcome)) : List PriceResult :=
  outcomes.filterMap (fun so =>
    match so.2 with
    | FetchOutcome.success raw => some (Normalize so.1 raw)
    | _ => none)

/-- Modelled from the spec (§4.5): the Comparison Engine, instrumented
with the number of adapter invocations it makes.  A query empty after
trimming fails with `InvalidQuery` before any adapter is invoked;
otherwise every adapter is invoked once and the result composes the
Aggregator and the Ranker. -/
def CompareRun (name : String) (adapters : List (String × (String → FetchOutcome))) :
    Except QueryError ComparisonResult × ℕ :=
  if strTrim name = "" then (Except.error QueryError.invalidQuery, 0)
  else
    let outcomes := adapters.map (fun a => (a.1, a.2 name))
    let res := Aggregate outcomes
    (Except.ok { perfume_name := name, results := res, best_deal := SelectBest res },
     adapters.length)

/-- Modelled from the spec (§4.5): `Compare(productName) ->
ComparisonResult` (or `InvalidQuery`). -/
def Compare (name : String) (adapters : List (String × (String → FetchOutcome))) :
    Except QueryError ComparisonResult :=
  (CompareRun name adapters).1

/-- From `src/components/SearchForm.tsx` lines 13–18 (`handleSubmit`): the
search callback is invoked with the trimmed name exactly when the trimmed
name is nonempty; the value returned is the argument passed to `onSearch`,
`none` when no call is made. -/
def handleSubmitSearch (perfumeName : String) : Option String :=
  if strTrim perfumeName = "" then none else some (strTrim perfumeName)

/-- From `src/components/ResultsGrid.tsx` line 73: a price card is marked
as the best deal when `best_deal` is non-null and agrees with the card's
result on both `site` and `price` (JavaScript `best_deal?.site ===
result.site && best_deal?.price === result.price`; with `best_deal` null
both comparisons are false). -/
def isBestDealFlag (best_deal : Option PriceResult) (result : PriceResult) : Bool :=
  match best_deal with
  | none => false
  | some b => decide (b.site = result.site) && decide (b.price = result.price)

/-- From `src/components/ResultsGrid.tsx` lines 37–65: the best-deal
banner renders exactly when `best_deal` is non-null. -/
def bestDealBannerShown (best_deal : Option PriceResult) : Bool :=
  best_deal.isSome

/-! ### Concrete fixtures (test data used to instantiate the theorems) -/

/-- Normalized entry of source A from the spec's worked example
(§8: price 50.00, size "100 ml", per-ml price 0.50). -/
def wA : PriceResult := ⟨"A", some 50, some "100 ml", some (1 / 2), "uA", "In Stock", none⟩

/-- Normalized entry of source B from the spec's worked example
(§8: price 30.00, size "50 ml", per-ml price 0.60). -/
def wB : PriceResult := ⟨"B", some 30, some "50 ml", some (3 / 5), "uB", "In Stock", none⟩

/-- A minimal raw extraction: price text "5", no size text. -/
def wRawA : RawExtraction := ⟨some "5", none, none, "u", none⟩

/-- The normalization of `wRawA` under site name "A". -/
def wNormA : PriceResult := ⟨"A", some 5, none, none, "u", "Unknown", none⟩

/-- The comparison result of querying "x" against the single adapter that
succeeds with `wRawA`. -/
def wCompA : ComparisonResult := ⟨"x", [wNormA], some wNormA⟩

/-- Raw extraction of fake source A in the spec's worked example (§8). -/
def egRawA : RawExtraction := ⟨some "$50.00", some "100 ml", some "In Stock", "uA", none⟩

/-- Raw extraction of fake source B in the spec's worked example (§8). -/
def egRawB : RawExtraction := ⟨some "$30.00", some "50 ml", some "In Stock", "uB", none⟩

/-- The three settled fake-source outcomes of the spec's worked example
(§8): A and B succeed, C reports `NotFound`. -/
def egOutcomes : List (String × FetchOutcome) :=
  [("A", FetchOutcome.success egRawA),
   ("B", FetchOutcome.success egRawB),
   ("C", FetchOutcome.notFound)]

/-- A raw extraction whose price text is unparseable. -/
def wRawBad : RawExtraction := ⟨some "N/A", some "100 ml", none, "u", none⟩

/-- The normalization of `wRawBad` under site name "A": the record is
retained with `price` and `price_per_ml` absent. -/
def wNormBad : PriceResult := ⟨"A", none, some "100 ml", none, "u", "Unknown", none⟩

/-- The comparison result of querying "x" against the single adapter that
succeeds with `wRawBad`: one unpriced row, no best deal. -/
def wCompBad : ComparisonResult := ⟨"x", [wNormBad], none⟩

/-- A raw extraction where every text field is malformed. -/
def wRawGarbage : RawExtraction := ⟨some "N/A", some "???", some "backordered", "u", none⟩

/-- A second card with the same site and price as `wA` but different
remaining fields. -/
def wA2 : PriceResult := ⟨"A", some 50, none, none, "u2", "Unknown", none⟩

/-! ### Helper lemmas -/

theorem round2_close (x : ℚ) : |round2 x - x| ≤ 1 / 200 := by
  have h := abs_sub_round (x * 100)
  have e : round2 x - x = (((round (x * 100) : ℤ) : ℚ) - x * 100) / 100 := by
    unfold round2; ring
  rw [e, abs_div]
  have h100 : |(100 : ℚ)| = 100 := by norm_num
  rw [h100]
  rw [abs_sub_comm] at h
  linarith

theorem argminBy_eq_none (f : PriceResult → ℚ) (l : List PriceResult) :
    argminBy f l = none ↔ l = [] := by
  cases l with
  | nil => simp [argminBy]
  | cons x xs =>
      unfold argminBy
      cases h : argminBy f xs with
      | none => simp
      | some b => by_cases hb : f b < f x <;> simp [hb]

theorem argminBy_mem (f : PriceResult → ℚ) :
    ∀ {l : List PriceResult} {r : PriceResult}, argminBy f l = some r → r ∈ l := by
  intro l
  induction l with
  | nil => intro r h; simp [argminBy] at h
  | cons x xs ih =>
      intro r h
      unfold argminBy at h
      split at h
      · simp only [Option.some.injEq] at h
        cases h
        exact List.mem_cons_self x xs
      · rename_i b heq
        split at h <;> simp only [Option.some.injEq] at h <;> cases h
        · exact List.mem_cons_of_mem x (ih heq)
        · exact List.mem_cons_self x xs

theorem argminBy_le (f : PriceResult → ℚ) :
    ∀ {l : List PriceResult} {r : PriceResult}, argminBy f l = some r →
      ∀ y ∈ l, f r ≤ f y := by
  intro l
  induction l with
  | nil => intro r h; simp [argminBy] at h
  | cons x xs ih =>
      intro r h y hy
      unfold argminBy at h
      split at h
      · rename_i heq
        simp only [Option.some.injEq] at h
        cases h
        have hnil : xs = [] := (argminBy_eq_none f xs).mp heq
        subst hnil
        rcases List.mem_cons.mp hy with hy | hy
        · exact hy ▸ le_refl _
        · cases hy
      · rename_i b heq
        split at h <;> rename_i hb <;> simp only [Option.some.injEq] at h <;> cases h
        · rcases List.mem_cons.mp hy with hy | hy
          · exact hy ▸ le_of_lt hb
          · exact ih heq y hy
        · rcases List.mem_cons.mp hy with hy | hy
          · exact hy ▸ le_refl _
          · exact le_trans (not_lt.mp hb) (ih heq y hy)

theorem argminBy_first (f : PriceResult → ℚ) :
    ∀ {l : List PriceResult} {r : PriceResult}, argminBy f l = some r →
      ∃ l₁ l₂, l = l₁ ++ r :: l₂ ∧ ∀ y ∈ l₁, f r < f y := by
  intro l
  induction l with
  | nil => intro r h; simp [argminBy] at h
  | cons x xs ih =>
      intro r h
      unfold argminBy at h
      split at h
      · simp only [Option.some.injEq] at h
        cases h
        exact ⟨[], xs, rfl, by simp⟩
      · rename_i b heq
        split at h <;> rename_i hb <;> simp only [Option.some.injEq] at h <;> cases h
        · obtain ⟨l₁, l₂, hsplit, hlt⟩ := ih heq
          refine ⟨x :: l₁, l₂, by rw [hsplit]; rfl, ?_⟩
          intro y hy
          rcases List.mem_cons.mp hy with hy | hy
          · exact hy ▸ hb
          · exact hlt y hy
        · exact ⟨[], xs, rfl, by simp⟩

theorem SelectBest_none_of_no_priced {l : List PriceResult}
    (h : l.filter (fun r => r.price.isSome) = []) : SelectBest l = none := by
  unfold SelectBest
  simp [h]

theorem SelectBest_isSome {l : List PriceResult}
    (h : l.filter (fun r => r.price.isSome) ≠ []) : (SelectBest l).isSome := by
  unfold SelectBest
  simp only [List.isEmpty_iff, h, if_false]
  by_cases h2 : 2 ≤ (List.filter (fun r => r.price_per_ml.isSome)
      (List.filter (fun r => r.price.isSome) l)).length
  · rw [if_pos h2]
    cases ha : argminBy ppmKey (List.filter (fun r => r.price_per_ml.isSome)
        (List.filter (fun r => r.price.isSome) l)) with
    | none =>
        rw [argminBy_eq_none] at ha
        rw [ha] at h2
        simp at h2
    | some b => simp
  · rw [if_neg h2]
    cases ha : argminBy priceKey (List.filter (fun r => r.price.isSome) l) with
    | none =>
        rw [argminBy_eq_none] at ha
        exact absurd ha h
    | some b => simp

theorem SelectBest_mem {l : List PriceResult} {r : PriceResult}
    (h : SelectBest l = some r) : r ∈ l ∧ r.price.isSome := by
  unfold SelectBest at h
  by_cases he : (l.filter (fun r => r.price.isSome)).isEmpty
  · rw [if_pos he] at h; cases h
  · rw [if_neg he] at h
    by_cases h2 : 2 ≤ (List.filter (fun r => r.price_per_ml.isSome)
        (List.filter (fun r => r.price.isSome) l)).length
    · rw [if_pos h2] at h
      have hm := argminBy_mem ppmKey h
      have hm2 := (List.mem_filter.mp hm).1
      exact ⟨(List.mem_filter.mp hm2).1, (List.mem_filter.mp hm2).2⟩
    · rw [if_neg h2] at h
      have hm := argminBy_mem priceKey h
      exact ⟨(List.mem_filter.mp hm).1, (List.mem_filter.mp hm).2⟩

theorem mem_Aggregate {outcomes : List (String × FetchOutcome)} {r : PriceResult}
    (h : r ∈ Aggregate outcomes) :
    ∃ s raw, (s, FetchOutcome.success raw) ∈ outcomes ∧ r = Normalize s raw := by
  unfold Aggregate at h
  rw [List.mem_filterMap] at h
  obtain ⟨⟨s, o⟩, hmem, hval⟩ := h
  cases o with
  | success raw =>
      refine ⟨s, raw, hmem, ?_⟩
      simp only [Option.some.injEq] at hval
      exact hval.symm
  | notFound => simp at hval
  | unreachable => simp at hval
  | parseFailure => simp at hval
  | timeout => simp at hval

theorem Aggregate_nil_of_failures {outcomes : List (String × FetchOutcome)}
    (h : ∀ so ∈ outcomes, ∀ raw, so.2 ≠ FetchOutcome.success raw) :
    Aggregate outcomes = [] := by
  unfold Aggregate
  rw [List.filterMap_eq_nil_iff]
  intro so hso
  cases ho : so.2 with
  | success raw => exact absurd ho (h so hso raw)
  | notFound => simp [ho]
  | unreachable => simp [ho]
  | parseFailure => simp [ho]
  | timeout => simp [ho]

theorem mapStockStatus_cases (raw : Option String) :
    mapStockStatus raw = "In Stock" ∨ mapStockStatus raw = "Out of Stock" ∨
      mapStockStatus raw = "Unknown" := by
  unfold mapStockStatus
  cases raw with
  | none => simp
  | some s =>
      by_cases h1 : containsSubList ['o', 'u', 't'] (List.map Char.toLower s.data) = true
      · simp [h1]
      · by_cases h2 :
          containsSubList ['i', 'n', ' ', 's', 't', 'o', 'c', 'k']
            (List.map Char.toLower s.data) = true ∨
          containsSubList ['a', 'v', 'a', 'i', 'l', 'a', 'b', 'l', 'e']
            (List.map Char.toLower s.data) = true
        · simp [h1, h2]
        · simp [h1, h2]

theorem Normalize_price_none {site : String} {raw : RawExtraction}
    (h : (Normalize site raw).price = none) :
    (Normalize site raw).price_per_ml = none := by
  unfold Normalize at h ⊢
  simp only at h ⊢
  rw [h]

theorem Normalize_ppm_iff (site : String) (raw : RawExtraction) (q : ℚ) :
    (Normalize site raw).price_per_ml = some q ↔
      ∃ p v, (Normalize site raw).price = some p ∧
        ((Normalize site raw).size.bind parseVolumeMl) = some v ∧ 0 < v ∧
        q = round2 (p / v) := by
  unfold Normalize
  simp only
  cases hp : raw.rawPrice.bind parsePrice with
  | none => simp
  | some p =>
      cases hv : raw.rawSize.bind parseVolumeMl with
      | none => simp
      | some v =>
          by_cases hpos : 0 < v
          · simp only [if_pos hpos, Option.some.injEq]
            constructor
            · intro h; exact ⟨p, v, rfl, rfl, hpos, h.symm⟩
            · rintro ⟨p', v', hp', hv', _, hq⟩
              subst hp'; subst hv'; exact hq.symm
          · simp only [if_neg hpos]
            constructor
            · intro h; cases h
            · rintro ⟨p', v', hp', hv', hpos', hq⟩
              simp only [Option.some.injEq] at hp' hv'
              subst hv'
              exact absurd hpos' hpos

theorem Compare_eq_ok {name : String} (adapters : List (String × (String → FetchOutcome)))
    (h : ¬ strTrim name = "") :
    Compare name adapters = Except.ok
      { perfume_name := name
        results := Aggregate (adapters.map (fun a => (a.1, a.2 name)))
        best_deal := SelectBest (Aggregate (adapters.map (fun a => (a.1, a.2 name)))) } := by
  unfold Compare CompareRun
  rw [if_neg h]

theorem Compare_ok_inv {name : String} {adapters : List (String × (String → FetchOutcome))}
    {c : ComparisonResult} (h : Compare name adapters = Except.ok c) :
    c.results = Aggregate (adapters.map (fun a => (a.1, a.2 name))) ∧
      c.best_deal = SelectBest c.results := by
  by_cases ht : strTrim name = ""
  · unfold Compare CompareRun at h
    rw [if_pos ht] at h
    cases h
  · rw [Compare_eq_ok adapters ht] at h
    simp only [Except.ok.injEq] at h
    subst h
    exact ⟨rfl, rfl⟩

theorem forall2_project (name : String) :
    ∀ {a₁ a₂ : List (String × (String → FetchOutcome))},
      List.Forall₂ (fun x y => x.1 = y.1 ∧ x.2 name = y.2 name) a₁ a₂ →
      a₁.map (fun a => (a.1, a.2 name)) = a₂.map (fun a => (a.1, a.2 name)) := by
  intro a₁ a₂ h
  induction h with
  | nil => rfl
  | cons hxy _ ih =>
      simp only [List.map_cons, ih, List.cons.injEq, and_true]
      exact Prod.ext hxy.1 hxy.2

/-! ### Claim theorems -/

/-- C1: `SelectBest` considers only entries whose `price` is present and
returns `none` when there are none; when at least two priced entries carry
`price_per_ml` it returns the entry with minimal `price_per_ml`, otherwise
the entry with minimal raw `price`, ties broken by earliest position in
the input order (the returned entry is preceded only by entries with
strictly larger key); and for every valid query where at least one adapter
produced a priced result, `best_deal` is present and equals
`SelectBest` of the `results` list. -/
theorem C1_selectBest_policy :
    (∀ results : List PriceResult,
      results.filter (fun r => r.price.isSome) = [] → SelectBest results = none) ∧
    (∀ results : List PriceResult,
      results.filter (fun r => r.price.isSome) ≠ [] →
      ∃ r, SelectBest results = some r ∧ r ∈ results ∧ r.price.isSome ∧
        (2 ≤ ((results.filter (fun r => r.price.isSome)).filter
            (fun r => r.price_per_ml.isSome)).length →
          r ∈ (results.filter (fun r => r.price.isSome)).filter
            (fun r => r.price_per_ml.isSome) ∧
          (∀ y ∈ (results.filter (fun r => r.price.isSome)).filter
            (fun r => r.price_per_ml.isSome), ppmKey r ≤ ppmKey y) ∧
          (∃ l₁ l₂, (results.filter (fun r => r.price.isSome)).filter
              (fun r => r.price_per_ml.isSome) = l₁ ++ r :: l₂ ∧
            ∀ y ∈ l₁, ppmKey r < ppmKey y)) ∧
        (((results.filter (fun r => r.price.isSome)).filter
            (fun r => r.price_per_ml.isSome)).length < 2 →
          (∀ y ∈ results.filter (fun r => r.price.isSome), priceKey r ≤ priceKey y) ∧
          (∃ l₁ l₂, results.filter (fun r => r.price.isSome) = l₁ ++ r :: l₂ ∧
            ∀ y ∈ l₁, priceKey r < priceKey y))) ∧
    (∀ (name : String) (adapters : List (String × (String → FetchOutcome)))
        (c : ComparisonResult), Compare name adapters = Except.ok c →
      (∃ r ∈ c.results, r.price.isSome) →
      c.best_deal.isSome ∧ c.best_deal = SelectBest c.results) := by
  refine ⟨?_, ?_, ?_⟩
  · intro results h
    exact SelectBest_none_of_no_priced h
  · intro results hne
    have hne' : ¬ (results.filter (fun r => r.price.isSome)).isEmpty = true := by
      simp [List.isEmpty_iff, hne]
    by_cases h2 : 2 ≤ ((results.filter (fun r => r.price.isSome)).filter
        (fun r => r.price_per_ml.isSome)).length
    · have hppmne : (results.filter (fun r => r.price.isSome)).filter
          (fun r => r.price_per_ml.isSome) ≠ [] := by
        intro h; rw [h] at h2; simp at h2
      cases ha : argminBy ppmKey ((results.filter (fun r => r.price.isSome)).filter
          (fun r => r.price_per_ml.isSome)) with
      | none => exact absurd ((argminBy_eq_none _ _).mp ha) hppmne
      | some r =>
          have hmem := argminBy_mem ppmKey ha
          have hmem1 := (List.mem_filter.mp hmem).1
          refine ⟨r, ?_, (List.mem_filter.mp hmem1).1, (List.mem_filter.mp hmem1).2,
            fun _ => ⟨hmem, argminBy_le ppmKey ha, argminBy_first ppmKey ha⟩,
            fun hlt => absurd h2 (not_le.mpr hlt)⟩
          unfold SelectBest
          rw [if_neg hne', if_pos h2]
          exact ha
    · cases ha : argminBy priceKey (results.filter (fun r => r.price.isSome)) with
      | none => exact absurd ((argminBy_eq_none _ _).mp ha) hne
      | some r =>
          have hmem := argminBy_mem priceKey ha
          refine ⟨r, ?_, (List.mem_filter.mp hmem).1, (List.mem_filter.mp hmem).2,
            fun h => absurd h h2,
            fun _ => ⟨argminBy_le priceKey ha, argminBy_first priceKey ha⟩⟩
          unfold SelectBest
          rw [if_neg hne', if_neg h2]
          exact ha
  · intro name adapters c hok hex
    obtain ⟨hres, hbd⟩ := Compare_ok_inv hok
    obtain ⟨r, hr, hp⟩ := hex
    have hne : c.results.filter (fun r => r.price.isSome) ≠ [] := by
      have : r ∈ c.results.filter (fun r => r.price.isSome) :=
        List.mem_filter.mpr ⟨hr, hp⟩
      exact List.ne_nil_of_mem this
    refine ⟨?_, hbd⟩
    rw [hbd]
    exact SelectBest_isSome hne

/-- Witness for C1: a two-entry list where both priced entries carry
`price_per_ml` (the minimum, at per-ml price 1/2, sits at the head), and a
one-adapter query whose `best_deal` is present and equal to
`SelectBest` of its results. -/
theorem C1_selectBest_policy_witness :
    (∃ r, SelectBest [wA, wB] = some r ∧ r ∈ [wA, wB] ∧ r.price.isSome) ∧
    wCompA.best_deal.isSome := by
  constructor
  · obtain ⟨r, h1, h2, h3, -, -⟩ := C1_selectBest_policy.2.1 [wA, wB] (by decide)
    exact ⟨r, h1, h2, h3⟩
  · exact (C1_selectBest_policy.2.2 "x"
      [("A", fun _ => FetchOutcome.success wRawA)] wCompA (by rfl) (by decide)).1

/-- C3: a product name that is empty after trimming whitespace (such as
`"   "`) makes `Compare` fail with `InvalidQuery` while invoking zero
adapters, and the search form's submit handler makes no `onSearch` call
for it. -/
theorem C3_invalid_query_no_adapters :
    ∀ (name : String) (adapters : List (String × (String → FetchOutcome))),
      strTrim name = "" →
      CompareRun name adapters = (Except.error QueryError.invalidQuery, 0) ∧
      handleSubmitSearch name = none := by
  intro name adapters h
  constructor
  · unfold CompareRun
    rw [if_pos h]
  · unfold handleSubmitSearch
    rw [if_pos h]

/-- Witness for C3: the whitespace-only query `"   "` against one
call-counting adapter fake. -/
theorem C3_invalid_query_no_adapters_witness :
    CompareRun "   " [("A", fun _ => FetchOutcome.notFound)] =
      (Except.error QueryError.invalidQuery, 0) ∧
    handleSubmitSearch "   " = none :=
  C3_invalid_query_no_adapters "   " [("A", fun _ => FetchOutcome.notFound)] (by decide)

/-- C4: for every product name non-empty after trimming, `Compare`
returns a `ComparisonResult` and never fails, for every combination of
adapter outcomes; when every source returns `Unreachable` the result has
empty `results` and absent `best_deal` rather than a top-level error. -/
theorem C4_compare_total_on_valid :
    ∀ (name : String) (adapters : List (String × (String → FetchOutcome))),
      strTrim name ≠ "" →
      (∃ c, Compare name adapters = Except.ok c) ∧
      ((∀ a ∈ adapters, a.2 name = FetchOutcome.unreachable) →
        Compare name adapters =
          Except.ok { perfume_name := name, results := [], best_deal := none }) := by
  intro name adapters h
  constructor
  · exact ⟨_, Compare_eq_ok adapters h⟩
  · intro hall
    rw [Compare_eq_ok adapters h]
    have hagg : Aggregate (adapters.map (fun a => (a.1, a.2 name))) = [] := by
      apply Aggregate_nil_of_failures
      intro so hso raw
      rw [List.mem_map] at hso
      obtain ⟨a, ha, rfl⟩ := hso
      rw [hall a ha]
      intro hcon
      cases hcon
    rw [hagg]
    rfl

/-- Witness for C4: the valid query `"x"` against one always-unreachable
adapter succeeds with empty `results` and null `best_deal`. -/
theorem C4_compare_total_on_valid_witness :
    Compare "x" [("A", fun _ => FetchOutcome.unreachable)] =
      Except.ok { perfume_name := "x", results := [], best_deal := none } :=
  (C4_compare_total_on_valid "x" [("A", fun _ => FetchOutcome.unreachable)]
    (by decide)).2 (by intro a ha; rw [List.mem_singleton] at ha; subst ha; rfl)

/-- C2: for every element of every returned results list, and for
`best_deal` when present, `price` absent implies `price_per_ml` absent;
and `price_per_ml`, when present, is the rounding of `price` divided by
the parsed volume in milliliters, within a half-cent (agreement to at
least 2 decimal digits). -/
theorem C2_ppm_invariant :
    ∀ (name : String) (adapters : List (String × (String → FetchOutcome)))
      (c : ComparisonResult), Compare name adapters = Except.ok c →
      (∀ r ∈ c.results,
        (r.price = none → r.price_per_ml = none) ∧
        (∀ q, r.price_per_ml = some q →
          ∃ p v, r.price = some p ∧ r.size.bind parseVolumeMl = some v ∧ 0 < v ∧
            q = round2 (p / v) ∧ |q - p / v| ≤ 1 / 200)) ∧
      (∀ b, c.best_deal = some b →
        (b.price = none → b.price_per_ml = none) ∧
        (∀ q, b.price_per_ml = some q →
          ∃ p v, b.price = some p ∧ b.size.bind parseVolumeMl = some v ∧ 0 < v ∧
            q = round2 (p / v) ∧ |q - p / v| ≤ 1 / 200)) := by
  intro name adapters c hok
  obtain ⟨hres, hbd⟩ := Compare_ok_inv hok
  have main : ∀ r ∈ c.results,
      (r.price = none → r.price_per_ml = none) ∧
      (∀ q, r.price_per_ml = some q →
        ∃ p v, r.price = some p ∧ r.size.bind parseVolumeMl = some v ∧ 0 < v ∧
          q = round2 (p / v) ∧ |q - p / v| ≤ 1 / 200) := by
    intro r hr
    rw [hres] at hr
    obtain ⟨s, raw, -, rfl⟩ := mem_Aggregate hr
    refine ⟨fun h => Normalize_price_none h, fun q hq => ?_⟩
    obtain ⟨p, v, hp, hv, hpos, hq2⟩ := (Normalize_ppm_iff s raw q).mp hq
    exact ⟨p, v, hp, hv, hpos, hq2, by rw [hq2]; exact round2_close _⟩
  refine ⟨main, fun b hb => ?_⟩
  rw [hbd] at hb
  exact main b (SelectBest_mem hb).1

/-- Witness for C2: a source whose price text is unparseable yields a
retained row with `price` and `price_per_ml` both absent. -/
theorem C2_ppm_invariant_witness : wNormBad.price_per_ml = none :=
  ((C2_ppm_invariant "x" [("A", fun _ => FetchOutcome.success wRawBad)] wCompBad
    (by rfl)).1 wNormBad (by decide)).1 (by rfl)

theorem eval_price_50 : parsePrice "$50.00" = some 50 := by
  have h : parsePrice "$50.00" =
      some (((50 : ℕ) : ℚ) + ((0 : ℕ) : ℚ) / (10 : ℚ) ^ (2 : ℕ)) := rfl
  rw [h]; norm_num

theorem eval_price_30 : parsePrice "$30.00" = some 30 := by
  have h : parsePrice "$30.00" =
      some (((30 : ℕ) : ℚ) + ((0 : ℕ) : ℚ) / (10 : ℚ) ^ (2 : ℕ)) := rfl
  rw [h]; norm_num

theorem eval_norm_A : Normalize "A" egRawA = wA := by
  have hp : egRawA.rawPrice.bind parsePrice = some 50 := by
    show parsePrice "$50.00" = some 50
    exact eval_price_50
  have hv : egRawA.rawSize.bind parseVolumeMl = some ((100 : ℕ) : ℚ) := rfl
  unfold Normalize
  rw [hp, hv]
  simp only [wA, PriceResult.mk.injEq, true_and, and_true]
  rw [if_pos (by norm_num : (0 : ℚ) < ((100 : ℕ) : ℚ))]
  norm_num [round2, round_eq]
  exact ⟨rfl, rfl, rfl, rfl⟩

theorem eval_norm_B : Normalize "B" egRawB = wB := by
  have hp : egRawB.rawPrice.bind parsePrice = some 30 := by
    show parsePrice "$30.00" = some 30
    exact eval_price_30
  have hv : egRawB.rawSize.bind parseVolumeMl = some ((50 : ℕ) : ℚ) := rfl
  unfold Normalize
  rw [hp, hv]
  simp only [wB, PriceResult.mk.injEq, true_and, and_true]
  rw [if_pos (by norm_num : (0 : ℚ) < ((50 : ℕ) : ℚ))]
  norm_num [round2, round_eq]
  exact ⟨rfl, rfl, rfl, rfl⟩

theorem eval_selectBest_eg : SelectBest [wA, wB] = some wA := by
  unfold SelectBest
  rw [if_neg (by decide), if_pos (by decide)]
  have hf : List.filter (fun r => r.price_per_ml.isSome)
      (List.filter (fun r => r.price.isSome) [wA, wB]) = [wA, wB] := rfl
  rw [hf]
  simp only [argminBy]
  rw [if_neg (by norm_num [ppmKey, wA, wB])]

/-- C5: an adapter outcome of `NotFound`, `Unreachable`, `ParseFailure`
or `Timeout` contributes no element to `Aggregate`'s output, and every
success contributes exactly one normalized element; on the spec's worked
example (A: 50.00 at "100 ml", B: 30.00 at "50 ml", C: NotFound) the
results are exactly the two normalized rows with per-ml prices 0.50 and
0.60 and the best deal is A. -/
theorem C5_aggregate_outcomes :
    (∀ (xs ys : List (String × FetchOutcome)) (s : String) (o : FetchOutcome),
      (∀ raw, o ≠ FetchOutcome.success raw) →
      Aggregate (xs ++ (s, o) :: ys) = Aggregate (xs ++ ys)) ∧
    (∀ (xs ys : List (String × FetchOutcome)) (s : String) (raw : RawExtraction),
      Aggregate (xs ++ (s, FetchOutcome.success raw) :: ys) =
        Aggregate xs ++ Normalize s raw :: Aggregate ys) ∧
    Aggregate egOutcomes = [wA, wB] ∧
    SelectBest (Aggregate egOutcomes) = some wA := by
  have hexample : Aggregate egOutcomes = [wA, wB] := by
    have he : Aggregate egOutcomes = [Normalize "A" egRawA, Normalize "B" egRawB] := rfl
    rw [he, eval_norm_A, eval_norm_B]
  refine ⟨?_, ?_, hexample, ?_⟩
  · intro xs ys s o ho
    unfold Aggregate
    rw [List.filterMap_append, List.filterMap_append]
    congr 1
    have hnone : (fun so => match so.2 with
        | FetchOutcome.success raw => some (Normalize so.1 raw)
        | _ => (none : Option PriceResult)) (s, o) = none := by
      cases o with
      | success raw => exact absurd rfl (ho raw)
      | notFound => rfl
      | unreachable => rfl
      | parseFailure => rfl
      | timeout => rfl
    exact List.filterMap_cons_none hnone
  · intro xs ys s raw
    unfold Aggregate
    rw [List.filterMap_append]
    congr 1
  · rw [hexample]
    exact eval_selectBest_eg

/-- Witness for C5: the `NotFound` outcome of fake source C contributes
nothing to the aggregated list. -/
theorem C5_aggregate_outcomes_witness :
    Aggregate ([] ++ ("C", FetchOutcome.notFound) :: []) = Aggregate ([] ++ []) :=
  C5_aggregate_outcomes.1 [] [] "C" FetchOutcome.notFound
    (by intro raw h; cases h)

/-- C6: `Normalize` is total and never discards the record: the site is
kept, the raw size string is kept, `price_per_ml` is present exactly when
both `price` and a positive parsed volume are present (so the division is
always guarded), and an unparseable price degrades `price` and
`price_per_ml` to absent while still returning a `PriceResult`. -/
theorem C6_normalize_total :
    ∀ (site : String) (raw : RawExtraction),
      (Normalize site raw).site = site ∧
      (Normalize site raw).size = raw.rawSize ∧
      (∀ q, (Normalize site raw).price_per_ml = some q ↔
        ∃ p v, (Normalize site raw).price = some p ∧
          ((Normalize site raw).size.bind parseVolumeMl) = some v ∧ 0 < v ∧
          q = round2 (p / v)) ∧
      (raw.rawPrice.bind parsePrice = none →
        (Normalize site raw).price = none ∧ (Normalize site raw).price_per_ml = none) := by
  intro site raw
  refine ⟨rfl, rfl, fun q => Normalize_ppm_iff site raw q, fun h => ?_⟩
  have hp : (Normalize site raw).price = none := h
  exact ⟨hp, Normalize_price_none hp⟩

/-- Witness for C6: a raw extraction with malformed price, size and stock
text still normalizes to a record for its site, with the unparseable
fields degraded to absent. -/
theorem C6_normalize_total_witness :
    (Normalize "A" wRawGarbage).site = "A" ∧
    (Normalize "A" wRawGarbage).price = none ∧
    (Normalize "A" wRawGarbage).price_per_ml = none := by
  have h := C6_normalize_total "A" wRawGarbage
  exact ⟨h.1, (h.2.2.2 (by rfl)).1, (h.2.2.2 (by rfl)).2⟩

/-- C8: `Compare` is deterministic over its inputs: two adapter lists
that agree sitewise and whose fetch functions agree at the queried name
produce identical results (same `results` sequence, same `best_deal`). -/
theorem C8_compare_deterministic :
    ∀ (name : String) (a₁ a₂ : List (String × (String → FetchOutcome))),
      List.Forall₂ (fun x y => x.1 = y.1 ∧ x.2 name = y.2 name) a₁ a₂ →
      Compare name a₁ = Compare name a₂ := by
  intro name a₁ a₂ h
  have hm := forall2_project name h
  by_cases ht : strTrim name = ""
  · unfold Compare CompareRun
    rw [if_pos ht, if_pos ht]
  · rw [Compare_eq_ok a₁ ht, Compare_eq_ok a₂ ht, hm]

/-- Witness for C8: two syntactically different adapter lists that agree
at the query "x" produce the same comparison result. -/
theorem C8_compare_deterministic_witness :
    Compare "x" [("A", fun _ => FetchOutcome.notFound)] =
      Compare "x" [("A", fun s =>
        if strTrim s = "" then FetchOutcome.timeout else FetchOutcome.notFound)] :=
  C8_compare_deterministic "x" _ _
    (List.Forall₂.cons ⟨rfl, by decide⟩ List.Forall₂.nil)

/-- C9: every `PriceResult` produced by the core — every element of
`results` and `best_deal` when present — has `stock_status` equal to one
of the three literal strings "In Stock", "Out of Stock", "Unknown". -/
theorem C9_stock_status_closed :
    ∀ (name : String) (adapters : List (String × (String → FetchOutcome)))
      (c : ComparisonResult), Compare name adapters = Except.ok c →
      (∀ r ∈ c.results, r.stock_status = "In Stock" ∨
        r.stock_status = "Out of Stock" ∨ r.stock_status = "Unknown") ∧
      (∀ b, c.best_deal = some b → b.stock_status = "In Stock" ∨
        b.stock_status = "Out of Stock" ∨ b.stock_status = "Unknown") := by
  intro name adapters c hok
  obtain ⟨hres, hbd⟩ := Compare_ok_inv hok
  have main : ∀ r ∈ c.results, r.stock_status = "In Stock" ∨
      r.stock_status = "Out of Stock" ∨ r.stock_status = "Unknown" := by
    intro r hr
    rw [hres] at hr
    obtain ⟨s, raw, -, rfl⟩ := mem_Aggregate hr
    have : (Normalize s raw).stock_status = mapStockStatus raw.rawStock := rfl
    rw [this]
    exact mapStockStatus_cases raw.rawStock
  refine ⟨main, fun b hb => ?_⟩
  rw [hbd] at hb
  exact main b (SelectBest_mem hb).1

/-- Witness for C9: the row produced from `wRawA` (no stock text) carries
one of the three literal stock strings. -/
theorem C9_stock_status_closed_witness :
    wNormA.stock_status = "In Stock" ∨ wNormA.stock_status = "Out of Stock" ∨
      wNormA.stock_status = "Unknown" :=
  (C9_stock_status_closed "x" [("A", fun _ => FetchOutcome.success wRawA)] wCompA
    (by rfl)).1 wNormA (by decide)

/-- C10: in the results view a price card is highlighted as best deal iff
`best_deal` is non-null and agrees with the card's result on both `site`
and `price`; hence two entries sharing site and price are both
highlighted, and when `best_deal` matches no entry no card is highlighted
even though the best-deal banner is shown. -/
theorem C10_best_deal_highlight :
    (∀ (bd : Option PriceResult) (r : PriceResult),
      isBestDealFlag bd r = true ↔
        ∃ b, bd = some b ∧ b.site = r.site ∧ b.price = r.price) ∧
    (∀ (bd : Option PriceResult) (r₁ r₂ : PriceResult),
      isBestDealFlag bd r₁ = true → r₂.site = r₁.site → r₂.price = r₁.price →
      isBestDealFlag bd r₂ = true) ∧
    (∀ (b : PriceResult) (results : List PriceResult),
      (∀ r ∈ results, ¬ (b.site = r.site ∧ b.price = r.price)) →
      (∀ r ∈ results, isBestDealFlag (some b) r = false) ∧
      bestDealBannerShown (some b) = true) := by
  refine ⟨?_, ?_, ?_⟩
  · intro bd r
    cases bd with
    | none => simp [isBestDealFlag]
    | some b =>
        unfold isBestDealFlag
        simp only [Bool.and_eq_true, decide_eq_true_eq]
        constructor
        · rintro ⟨h1, h2⟩
          exact ⟨b, rfl, h1, h2⟩
        · rintro ⟨b', hb', h1, h2⟩
          cases hb'
          exact ⟨h1, h2⟩
  · intro bd r₁ r₂ h h1 h2
    cases bd with
    | none => simp [isBestDealFlag] at h
    | some b =>
        unfold isBestDealFlag at h ⊢
        simp only [Bool.and_eq_true, decide_eq_true_eq] at h ⊢
        exact ⟨h1 ▸ h.1, h2 ▸ h.2⟩
  · intro b results hno
    refine ⟨fun r hr => ?_, rfl⟩
    unfold isBestDealFlag
    rw [Bool.eq_false_iff]
    intro hc
    rw [Bool.and_eq_true, decide_eq_true_eq, decide_eq_true_eq] at hc
    exact hno r hr hc

/-- Witness for C10: with best deal `wA`, both cards sharing "A"/50 are
highlighted; with the single card `wB`, no card is highlighted while the
banner still shows. -/
theorem C10_best_deal_highlight_witness :
    isBestDealFlag (some wA) wA2 = true ∧
    (isBestDealFlag (some wA) wB = false ∧ bestDealBannerShown (some wA) = true) := by
  constructor
  · exact C10_best_deal_highlight.2.1 (some wA) wA wA2 (by decide) (by decide) (by decide)
  · have h := C10_best_deal_highlight.2.2 wA [wB] (by decide)
    exact ⟨h.1 wB (List.mem_cons_self wB []), h.2⟩

end Perfume
